import Mathlib

/-!
Verification of the mprune retention-policy engine (lib/mprune.js).

The JavaScript source is shallowly embedded: the policy engine's bucket tree
becomes nested association lists (preserving the object-key structure), regex
patterns become boolean predicates on strings (the pure `.test` behaviour),
and the streaming transform becomes an `Except`-valued fold (a stream error
aborts the run).
-/

namespace Mprune

/-- A calendar instant as the engine reads it off a JS `Date`:
`getUTCFullYear()`, `getUTCMonth() + 1`, `getUTCDate()`. -/
structure TimeVal where
  year : Nat
  month : Nat
  day : Nat
deriving DecidableEq, Repr

/-- An annotated object record as produced by `MpruneTransformPath`:
the path, its basename, and the extracted begin time (`null` when the path
carries no recognizable date). -/
structure ObjRecord where
  path : String
  basename : String
  start : Option TimeVal
deriving Repr

/-- A regular expression is embedded as its pure `.test` behaviour. -/
abbrev Pattern := String → Bool

/-- A record pushed downstream by the policy: `type` is "skip" or "remove",
`reason` is present exactly for skips. -/
structure DecisionRecord where
  dtype : String
  path : String
  reason : Option String
deriving DecidableEq, Repr

/-- A non-fatal warning emitted via `vsWarn`: the VError message and the tag. -/
structure Warning where
  tag : String
  msg : String
deriving DecidableEq, Repr

/-! ### Association lists standing in for JS object dictionaries -/

/-- `lookupAssoc k l` is `l.hasOwnProperty(k) ? l[k] : none` (first match). -/
def lookupAssoc (k : Nat) : List (Nat × α) → Option α
  | [] => none
  | (k₂, v) :: rest => if k₂ = k then some v else lookupAssoc k rest

/-- Update the value at key `k` via `f` (passed the old value when present),
appending a fresh entry when the key is absent — exactly the
`if (!node.hasOwnProperty(v)) node[v] = ...;` idiom of `_transform`. -/
def updateAssoc (k : Nat) (f : Option α → α) : List (Nat × α) → List (Nat × α)
  | [] => [(k, f none)]
  | (k₂, v) :: rest =>
      if k₂ = k then (k, f (some v)) :: rest else (k₂, v) :: updateAssoc k f rest

/-- The per-month tree: day of month → non-empty bucket of records. -/
abbrev MonthTree := List (Nat × List ObjRecord)

/-- month → MonthTree. -/
abbrev YearTree := List (Nat × MonthTree)

/-- `mpm_root`: year → month → day → bucket. -/
abbrev Root := List (Nat × YearTree)

/-! ### dayIsComplete (lines 490-517) -/

/-- The inner loop of `dayIsComplete` over one basename: splice out every
remaining pattern that `.test`s true on it (the `splice`/`i--` idiom removes
all matches, rescanning from the same index). -/
def consumePatterns (b : String) (regexps : List Pattern) : List Pattern :=
  regexps.filter (fun p => !(p b))

/-- `MprunePolicyTwiceMonthly.prototype.dayIsComplete`: false when the day's
bucket is absent or empty; true when the expected list is empty; otherwise
run every basename through the pattern-consuming loop on a fresh copy of the
expected list and report whether it emptied. -/
def dayIsComplete (expect : List Pattern) (tree : MonthTree) (which : Nat) : Bool :=
  match lookupAssoc which tree with
  | none => false
  | some bucket =>
    if bucket.length = 0 then false
    else if expect.length = 0 then true
    else
      (bucket.foldl (fun regexps o => consumePatterns o.basename regexps) expect).length = 0

/-! ### processMonth (lines 414-488) -/

/-- `for (first = 1; first < 15; first++) if (dayIsComplete) break;` —
the loop variable's final value: the first complete day in 1..14, else 15. -/
def firstKeep (expect : List Pattern) (tree : MonthTree) : Nat :=
  ((List.range' 1 14).find? (fun d => dayIsComplete expect tree d)).getD 15

/-- `for (second = 15; second <= 31; second++) ...` — the first complete day
in 15..31, else 32. -/
def secondKeep (expect : List Pattern) (tree : MonthTree) : Nat :=
  ((List.range' 15 17).find? (fun d => dayIsComplete expect tree d)).getD 32

/-- The emission loop `for (i = 0; i < 32; i++)` over the given day indices:
concatenate the buckets present in the tree. -/
def emitOver (days : List Nat) (tree : MonthTree) : List ObjRecord :=
  (days.map (fun i => (lookupAssoc i tree).getD [])).flatten

/-- One decision for one record of day `i`, given the month's `skip` flag and
keep-days — the body of the `objects.forEach` at lines 466-486. -/
def decideOne (skip : Bool) (first second i : Nat) (o : ObjRecord) : DecisionRecord :=
  if skip then
    ⟨"skip", o.path, some "could not determine which objects to keep in this month"⟩
  else if i = first ∨ i = second then
    ⟨"skip", o.path, some "designated for keeping"⟩
  else
    ⟨"remove", o.path, none⟩

/-- The emission loop restricted to a given list of day indices: one decision
per record of each present bucket. -/
def monthDecisionsOver (days : List Nat) (skip : Bool) (first second : Nat)
    (tree : MonthTree) : List DecisionRecord :=
  (days.map (fun i =>
    ((lookupAssoc i tree).getD []).map (decideOne skip first second i))).flatten

/-- All decisions of a month: the `i = 0 .. 31` loop over present buckets. -/
def monthDecisions (skip : Bool) (first second : Nat) (tree : MonthTree) :
    List DecisionRecord :=
  monthDecisionsOver (List.range 32) skip first second tree

/-- `MprunePolicyTwiceMonthly.prototype.processMonth`: scan both halves,
emit `nerr_missing` warnings and set the skip flag when a half has no
complete day, emit the deviation warnings for a non-skipped month (note the
copy-pasted "day 1" text on the `nwarn_noday2` warning), then emit one
decision per buffered record. -/
def processMonth (expect : List Pattern) (label : String) (tree : MonthTree) :
    List Warning × List DecisionRecord :=
  let first := firstKeep expect tree
  let w₁ : List Warning :=
    if first = 15 then [⟨"nerr_missing", label ++ ": no valid objects found in days 1-14"⟩]
    else []
  let second := secondKeep expect tree
  let w₂ : List Warning :=
    if second = 32 then [⟨"nerr_missing", label ++ ": no valid objects found after day 15"⟩]
    else []
  let skip : Bool := first = 15 || second = 32
  let w₃ : List Warning :=
    if !skip && first ≠ 1 then [⟨"nwarn_noday1", label ++ ": missing objects from day 1"⟩]
    else []
  let w₄ : List Warning :=
    if !skip && second ≠ 15 then [⟨"nwarn_noday2", label ++ ": missing objects from day 1"⟩]
    else []
  (w₁ ++ w₂ ++ w₃ ++ w₄, monthDecisions skip first second tree)

/-! ### Ingestion (_transform, lines 361-393) and _flush (lines 399-412) -/

/-- Insert a record into a month tree at its day, creating/appending the
bucket (`node[v] = []; node.push(obj)`). -/
def insertDay (tree : MonthTree) (d : Nat) (o : ObjRecord) : MonthTree :=
  updateAssoc d (fun bucket => bucket.getD [] ++ [o]) tree

/-- `_transform`: a record with a `null` start aborts the stream with the
fatal error; otherwise it is filed under (year, month, day). -/
def ingest (root : Root) (o : ObjRecord) : Except String Root :=
  match o.start with
  | none => .error ("found entry not under a particular time bucket: " ++ o.path)
  | some t => .ok (updateAssoc t.year (fun yt =>
      updateAssoc t.month (fun mt => insertDay (mt.getD []) t.day o) (yt.getD [])) root)

/-- Feed a whole input sequence through `_transform`, starting from the given
tree (`mpm_root` starts empty); the first fatal error aborts. -/
def ingestAll (root : Root) : List ObjRecord → Except String Root
  | [] => .ok root
  | o :: rest => (ingest root o).bind (fun root₂ => ingestAll root₂ rest)

/-- `sprintf('%s-%02d', year, month)` for the month keys that occur. -/
def labelFor (year month : Nat) : String :=
  toString year ++ "-" ++ (if month < 10 then "0" ++ toString month else toString month)

/-- `_flush`: process every month of every year; the warning stream and the
decision stream both accumulate in traversal order. -/
def flushAll (expect : List Pattern) (root : Root) : List Warning × List DecisionRecord :=
  (root.flatMap (fun yp => yp.2.flatMap (fun mp =>
      (processMonth expect (labelFor yp.1 mp.1) mp.2).1)),
   root.flatMap (fun yp => yp.2.flatMap (fun mp =>
      (processMonth expect (labelFor yp.1 mp.1) mp.2).2)))

/-- A whole run of `MprunePolicyTwiceMonthly`: ingest everything, then flush. -/
def runPolicy (expect : List Pattern) (input : List ObjRecord) :
    Except String (List Warning × List DecisionRecord) :=
  (ingestAll [] input).map (flushAll expect)

/-- All records buffered in a root tree, in the order `_flush` and the
emission loop visit them. -/
def rootRecords (root : Root) : List ObjRecord :=
  root.flatMap (fun yp => yp.2.flatMap (fun mp => emitOver (List.range 32) mp.2))

/-! ### policyForName (lines 78-89) -/

/-- The policy constructors the registry can return. -/
inductive PolicyCtor where
  | twiceMonthly
deriving DecidableEq, Repr

/-- `mpPolicies`: the policy table. -/
def mpPolicies : List (String × PolicyCtor) := [("twicemonthly", .twiceMonthly)]

/-- String-keyed `hasOwnProperty` / indexing for the policy table. -/
def lookupPolicy (k : String) : List (String × PolicyCtor) → Option PolicyCtor
  | [] => none
  | (k₂, v) :: rest => if k₂ = k then some v else lookupPolicy k rest

/-- JS `String.prototype.toLowerCase`: lower-case every character (the
policy names involved are ASCII). -/
def strToLower (s : String) : String := ⟨s.data.map Char.toLower⟩

/-- `policyForName`: lower-case the name, look it up, and either return the
constructor or an "unsupported policy" error carrying the original name. -/
def policyForName (name : String) : Except String PolicyCtor :=
  match lookupPolicy (strToLower name) mpPolicies with
  | none => .error ("unsupported policy: " ++ name)
  | some p => .ok p

/-! ### A mutable-array model for the `expect` list

`p_expect` is a JS array passed by reference; the constructor stores
`args.p_expect.slice(0)` (a fresh copy) and `dayIsComplete` works on
`this.mpm_expect.slice(0)` (another fresh copy) which it splices.  To state
aliasing facts we model a heap of pattern arrays with explicit references. -/

/-- A heap of pattern arrays. -/
abbrev PatStore := List (List Pattern)

/-- A reference into the heap. -/
abbrev ARef := Nat

/-- Dereference (out-of-range reads give the empty array). -/
def readRef (s : PatStore) (r : ARef) : List Pattern :=
  s.getD r []

/-- In-place array assignment. -/
def writeRef (s : PatStore) (r : ARef) (v : List Pattern) : PatStore :=
  s.set r v

/-- Allocate a fresh array holding `v`. -/
def allocRef (s : PatStore) (v : List Pattern) : PatStore × ARef :=
  (s ++ [v], s.length)

/-- `arr.slice(0)`: allocate a fresh array with the same contents. -/
def sliceCopy (s : PatStore) (r : ARef) : PatStore × ARef :=
  allocRef s (readRef s r)

/-- The policy's own state: the reference held in `mpm_expect`. -/
structure PolicyState where
  expectRef : ARef

/-- The `MpruneOperation` constructor's handling of `p_expect`: store
`args.p_expect.slice(0)` — a fresh copy of the caller's array. -/
def constructPolicy (s : PatStore) (callerRef : ARef) : PatStore × PolicyState :=
  let p := sliceCopy s callerRef
  (p.1, ⟨p.2⟩)

/-- `dayIsComplete` with the heap explicit: the working list is a fresh
`slice(0)` of the stored one, and every splice hits only the working copy. -/
def dayIsCompleteSt (s : PatStore) (st : PolicyState) (tree : MonthTree)
    (which : Nat) : PatStore × Bool :=
  match lookupAssoc which tree with
  | none => (s, false)
  | some bucket =>
    if bucket.length = 0 then (s, false)
    else if (readRef s st.expectRef).length = 0 then (s, true)
    else
      let p := sliceCopy s st.expectRef
      let s₂ := bucket.foldl
        (fun cur o => writeRef cur p.2 (consumePatterns o.basename (readRef cur p.2))) p.1
      (s₂, (readRef s₂ p.2).length = 0)

/-! ### Concrete inputs used by witnesses and counterexamples -/

/-- `.test` of the regular expression `/a\.log/` on the basenames that occur
in the examples below. -/
def patALog : Pattern := fun s => s == "a.log"

/-- A record with basename "a.log" on day 1. -/
def recALog : ObjRecord := ⟨"/backups/2016/06/01/a.log", "a.log", some ⟨2016, 6, 1⟩⟩

/-- A month with exactly one record, basename "a.log", on day 1. -/
def mtALog : MonthTree := [(1, [recALog])]

/-- A concrete record on the given day of 2016-06, path and basename `p`. -/
def mkRec (p : String) (d : Nat) : ObjRecord := ⟨p, p, some ⟨2016, 6, d⟩⟩

/-- A month with buckets on days 1 and 15 (the canonical keep-days). -/
def mtCanonical : MonthTree := [(1, [mkRec "one" 1]), (15, [mkRec "fifteen" 15])]

/-- A month with buckets on days 5 and 20 only (both keep-days deviate). -/
def mtDeviant : MonthTree := [(5, [mkRec "five" 5]), (20, [mkRec "twenty" 20])]

/-- A month with a bucket on day 20 only (days 1-14 empty: degraded). -/
def mtDegraded : MonthTree := [(20, [mkRec "twenty" 20])]

/-- A record whose path carries no recognizable date (`start` is null). -/
def recNoDate : ObjRecord := ⟨"/backups/README", "README", none⟩

/-! ## Association-list lemmas -/

theorem lookupAssoc_updateAssoc_self (k : Nat) (f : Option α → α)
    (l : List (Nat × α)) :
    lookupAssoc k (updateAssoc k f l) = some (f (lookupAssoc k l)) := by
  induction l with
  | nil => simp [lookupAssoc, updateAssoc]
  | cons hd tl ih =>
    obtain ⟨k₂, v⟩ := hd
    by_cases h : k₂ = k
    · subst h
      simp [lookupAssoc, updateAssoc]
    · simp [lookupAssoc, updateAssoc, h, ih]

theorem lookupAssoc_updateAssoc_ne (i k : Nat) (f : Option α → α)
    (l : List (Nat × α)) (h : i ≠ k) :
    lookupAssoc i (updateAssoc k f l) = lookupAssoc i l := by
  induction l with
  | nil =>
    simp only [updateAssoc, lookupAssoc]
    rw [if_neg (fun he => h he.symm)]
  | cons hd tl ih =>
    obtain ⟨k₂, v⟩ := hd
    by_cases h₂ : k₂ = k
    · subst h₂
      simp only [updateAssoc, if_pos rfl, lookupAssoc]
      rw [if_neg (fun he => h he.symm), if_neg (fun he => h he.symm)]
    · simp only [updateAssoc, if_neg h₂, lookupAssoc, ih]

/-! ## Emission lemmas -/

theorem emitOver_nil (days : List Nat) : emitOver days ([] : MonthTree) = [] := by
  induction days with
  | nil => rfl
  | cons d rest ih => simp [emitOver, lookupAssoc] at ih ⊢

theorem emitOver_insertDay_not_mem (tree : MonthTree) (d : Nat) (o : ObjRecord)
    (days : List Nat) (h : d ∉ days) :
    emitOver days (insertDay tree d o) = emitOver days tree := by
  unfold emitOver
  congr 1
  apply List.map_congr_left
  intro i hi
  rw [insertDay, lookupAssoc_updateAssoc_ne i d _ tree (fun he => h (he ▸ hi))]

theorem emitOver_insertDay_perm (tree : MonthTree) (d : Nat) (o : ObjRecord)
    (days : List Nat) (hmem : d ∈ days) (hnd : days.Nodup) :
    List.Perm (emitOver days (insertDay tree d o)) (o :: emitOver days tree) := by
  induction days with
  | nil => cases hmem
  | cons i rest ih =>
    rw [List.nodup_cons] at hnd
    rcases List.mem_cons.mp hmem with h | h
    · subst h
      have hrest : emitOver rest (insertDay tree d o) = emitOver rest tree :=
        emitOver_insertDay_not_mem tree d o rest hnd.1
      simp only [emitOver, insertDay, List.map_cons, List.flatten_cons] at hrest ⊢
      rw [lookupAssoc_updateAssoc_self, hrest]
      simp only [Option.getD_some]
      have hshift : ((lookupAssoc d tree).getD [] ++ [o]) ++
            (rest.map (fun j => (lookupAssoc j tree).getD [])).flatten
          = (lookupAssoc d tree).getD [] ++
            (o :: (rest.map (fun j => (lookupAssoc j tree).getD [])).flatten) := by
        simp
      rw [hshift]
      exact List.perm_middle
    · have hne : i ≠ d := fun he => hnd.1 (he ▸ h)
      simp only [emitOver, insertDay, List.map_cons, List.flatten_cons] at ih ⊢
      rw [lookupAssoc_updateAssoc_ne i d _ tree hne]
      exact (List.Perm.append_left _ (ih h hnd.2)).trans List.perm_middle

/-! ## Accounting through the nested tree -/

theorem flatMap_updateAssoc_perm (g : α → List β) (k : Nat) (f : Option α → α)
    (b : β) (h₁ : ∀ v, List.Perm (g (f (some v))) (b :: g v))
    (h₂ : List.Perm (g (f none)) [b]) (l : List (Nat × α)) :
    List.Perm ((updateAssoc k f l).flatMap (fun p => g p.2))
      (b :: l.flatMap (fun p => g p.2)) := by
  induction l with
  | nil => simpa [updateAssoc] using h₂
  | cons hd tl ih =>
    obtain ⟨k₂, v⟩ := hd
    by_cases h : k₂ = k
    · subst h
      simp only [updateAssoc, if_pos rfl, List.flatMap_cons]
      exact List.Perm.append_right _ (h₁ v)
    · simp only [updateAssoc, if_neg h, List.flatMap_cons]
      exact (List.Perm.append_left _ ih).trans List.perm_middle

theorem rootRecords_ingest (root root₂ : Root) (o : ObjRecord) (t : TimeVal)
    (hs : o.start = some t) (hd : t.day < 32) (h : ingest root o = .ok root₂) :
    List.Perm (rootRecords root₂) (o :: rootRecords root) := by
  have hmem : t.day ∈ List.range 32 := List.mem_range.mpr hd
  have hnd : (List.range 32).Nodup := List.nodup_range 32
  have hday : ∀ mt : MonthTree,
      List.Perm (emitOver (List.range 32) (insertDay mt t.day o))
        (o :: emitOver (List.range 32) mt) :=
    fun mt => emitOver_insertDay_perm mt t.day o _ hmem hnd
  have hmonth : ∀ yt : YearTree,
      List.Perm ((updateAssoc t.month
          (fun mt => insertDay (mt.getD []) t.day o) yt).flatMap
            (fun mp => emitOver (List.range 32) mp.2))
        (o :: yt.flatMap (fun mp => emitOver (List.range 32) mp.2)) := by
    intro yt
    refine flatMap_updateAssoc_perm _ t.month _ o (fun mt => hday mt) ?_ yt
    simpa [emitOver_nil] using hday []
  rw [ingest, hs] at h
  injection h with h
  subst h
  unfold rootRecords
  refine flatMap_updateAssoc_perm
    (fun yt => yt.flatMap (fun mp => emitOver (List.range 32) mp.2)) t.year _ o ?_ ?_ root
  · intro yt
    simpa using hmonth yt
  · simpa using hmonth []

theorem ingest_ok_of_some (root : Root) (o : ObjRecord) (t : TimeVal)
    (hs : o.start = some t) :
    ingest root o = .ok (updateAssoc t.year (fun yt =>
      updateAssoc t.month (fun mt => insertDay (mt.getD []) t.day o)
        (yt.getD [])) root) := by
  rw [ingest, hs]

theorem rootRecords_ingestAll (input : List ObjRecord) :
    ∀ (root root₂ : Root),
    (∀ o ∈ input, ∃ t, o.start = some t ∧ t.day < 32) →
    ingestAll root input = .ok root₂ →
    List.Perm (rootRecords root₂) (input ++ rootRecords root) := by
  induction input with
  | nil =>
    intro root root₂ _ h
    simp only [ingestAll] at h
    injection h with h
    subst h
    simp
  | cons o rest ih =>
    intro root root₂ hv h
    obtain ⟨t, hs, hd⟩ := hv o (List.mem_cons_self o rest)
    rw [ingestAll, ingest_ok_of_some root o t hs, Except.bind] at h
    have h₁ := rootRecords_ingest root _ o t hs hd (ingest_ok_of_some root o t hs)
    have h₂ := ih _ root₂ (fun r hr => hv r (List.mem_cons_of_mem o hr)) h
    refine h₂.trans ?_
    refine (List.Perm.append_left rest h₁).trans ?_
    exact List.perm_middle

/-! ## Decision-shape lemmas -/

theorem decideOne_path (skip : Bool) (first second i : Nat) (o : ObjRecord) :
    (decideOne skip first second i o).path = o.path := by
  unfold decideOne
  split
  · rfl
  · split <;> rfl

theorem monthDecisionsOver_paths (days : List Nat) (skip : Bool)
    (first second : Nat) (tree : MonthTree) :
    (monthDecisionsOver days skip first second tree).map DecisionRecord.path
      = (emitOver days tree).map ObjRecord.path := by
  induction days with
  | nil => rfl
  | cons i rest ih =>
    simp only [monthDecisionsOver, emitOver, List.map_cons, List.flatten_cons,
      List.map_append] at ih ⊢
    rw [ih, List.map_map]
    congr 1
    apply List.map_congr_left
    intro o _
    exact decideOne_path skip first second i o

theorem monthDecisionsOver_skip (days : List Nat) (first second : Nat)
    (tree : MonthTree) :
    monthDecisionsOver days true first second tree
      = (emitOver days tree).map (fun o =>
          ⟨"skip", o.path,
            some "could not determine which objects to keep in this month"⟩) := by
  induction days with
  | nil => rfl
  | cons i rest ih =>
    simp only [monthDecisionsOver, emitOver, List.map_cons, List.flatten_cons,
      List.map_append] at ih ⊢
    rw [ih]
    congr 1

theorem monthDecisionsOver_remove (days : List Nat) (first second : Nat)
    (tree : MonthTree) :
    (monthDecisionsOver days false first second tree).filter
        (fun d => d.dtype == "remove")
      = (emitOver (days.filter (fun i => !(i == first || i == second))) tree).map
          (fun o => ⟨"remove", o.path, none⟩) := by
  induction days with
  | nil => rfl
  | cons i rest ih =>
    simp only [monthDecisionsOver, emitOver, List.map_cons, List.flatten_cons,
      List.filter_append, List.filter_cons] at ih ⊢
    by_cases h : i = first ∨ i = second
    · have hb : (i == first || i == second) = true := by
        rcases h with h | h <;> subst h <;> simp
      have hdrop : (((lookupAssoc i tree).getD []).map
            (decideOne false first second i)).filter (fun d => d.dtype == "remove")
          = [] := by
        rw [List.filter_map]
        rw [List.filter_eq_nil_iff.mpr
          (fun o ho => by simp [Function.comp, decideOne, h])]
        rfl
      rw [ih, hdrop]
      simp [hb]
    · have hb : (i == first || i == second) = false := by
        push_neg at h
        simp [h.1, h.2]
      have hkeep : (((lookupAssoc i tree).getD []).map
            (decideOne false first second i)).filter (fun d => d.dtype == "remove")
          = ((lookupAssoc i tree).getD []).map (fun o => ⟨"remove", o.path, none⟩) := by
        rw [List.filter_map]
        rw [List.filter_eq_self.mpr (fun o ho => by simp [Function.comp, decideOne, h])]
        apply List.map_congr_left
        intro o _
        simp [decideOne, h]
      rw [ih, hkeep]
      simp [hb]

/-- The decision component of `processMonth` is the pure emission loop —
warnings do not feed into it. -/
theorem processMonth_snd (expect : List Pattern) (label : String)
    (tree : MonthTree) :
    (processMonth expect label tree).2
      = monthDecisions
          (decide (firstKeep expect tree = 15) || decide (secondKeep expect tree = 32))
          (firstKeep expect tree) (secondKeep expect tree) tree := rfl

theorem flushAll_snd_paths (expect : List Pattern) (root : Root) :
    ((flushAll expect root).2).map DecisionRecord.path
      = (rootRecords root).map ObjRecord.path := by
  induction root with
  | nil => rfl
  | cons yp rest ih =>
    obtain ⟨y, yt⟩ := yp
    simp only [flushAll, rootRecords, List.flatMap_cons, List.map_append] at ih ⊢
    rw [ih]
    congr 1
    induction yt with
    | nil => rfl
    | cons mp mrest mih =>
      obtain ⟨m, mt⟩ := mp
      simp only [List.flatMap_cons, List.map_append] at mih ⊢
      rw [mih, processMonth_snd, monthDecisions, monthDecisionsOver_paths]

/-! ## Keep-day scan lemmas -/

theorem firstKeep_eq_of_none (expect : List Pattern) (tree : MonthTree)
    (h : ∀ d ∈ List.range' 1 14, dayIsComplete expect tree d = false) :
    firstKeep expect tree = 15 := by
  unfold firstKeep
  rw [List.find?_eq_none.mpr (fun d hd => by simp [h d hd])]
  rfl

theorem secondKeep_eq_of_none (expect : List Pattern) (tree : MonthTree)
    (h : ∀ d ∈ List.range' 15 17, dayIsComplete expect tree d = false) :
    secondKeep expect tree = 32 := by
  unfold secondKeep
  rw [List.find?_eq_none.mpr (fun d hd => by simp [h d hd])]
  rfl

theorem firstKeep_bounds (expect : List Pattern) (tree : MonthTree)
    (h : firstKeep expect tree ≠ 15) :
    1 ≤ firstKeep expect tree ∧ firstKeep expect tree ≤ 14 := by
  unfold firstKeep at h ⊢
  cases hf : (List.range' 1 14).find? (fun d => dayIsComplete expect tree d) with
  | none => rw [hf] at h; exact absurd rfl h
  | some d =>
    simp only [Option.getD_some]
    have := List.mem_range'_1.mp (List.mem_of_find?_eq_some hf)
    exact ⟨this.1, Nat.lt_succ_iff.mp this.2⟩

theorem secondKeep_bounds (expect : List Pattern) (tree : MonthTree)
    (h : secondKeep expect tree ≠ 32) :
    15 ≤ secondKeep expect tree ∧ secondKeep expect tree ≤ 31 := by
  unfold secondKeep at h ⊢
  cases hf : (List.range' 15 17).find? (fun d => dayIsComplete expect tree d) with
  | none => rw [hf] at h; exact absurd rfl h
  | some d =>
    simp only [Option.getD_some]
    have := List.mem_range'_1.mp (List.mem_of_find?_eq_some hf)
    exact ⟨this.1, Nat.lt_succ_iff.mp this.2⟩

/-! ## The pattern-consuming fold -/

theorem mem_consume_fold (bucket : List ObjRecord) :
    ∀ (expect : List Pattern) (p : Pattern),
    p ∈ bucket.foldl (fun regexps o => consumePatterns o.basename regexps) expect
      ↔ p ∈ expect ∧ ∀ o ∈ bucket, p o.basename = false := by
  induction bucket with
  | nil => simp
  | cons o rest ih =>
    intro expect p
    simp only [List.foldl_cons]
    rw [ih]
    constructor
    · rintro ⟨hmem, hall⟩
      rw [consumePatterns, List.mem_filter] at hmem
      refine ⟨hmem.1, ?_⟩
      intro o₂ ho₂
      rcases List.mem_cons.mp ho₂ with he | he
      · subst he
        simpa using hmem.2
      · exact hall o₂ he
    · rintro ⟨hmem, hall⟩
      refine ⟨?_, fun o₂ ho₂ => hall o₂ (List.mem_cons_of_mem o ho₂)⟩
      rw [consumePatterns, List.mem_filter]
      exact ⟨hmem, by simp [hall o (List.mem_cons_self o rest)]⟩

theorem consume_fold_empty_iff (bucket : List ObjRecord) (expect : List Pattern) :
    bucket.foldl (fun regexps o => consumePatterns o.basename regexps) expect = []
      ↔ ∀ p ∈ expect, ∃ o ∈ bucket, p o.basename = true := by
  rw [List.eq_nil_iff_forall_not_mem]
  constructor
  · intro h p hp
    by_contra hno
    push_neg at hno
    refine h p ((mem_consume_fold bucket expect p).mpr ⟨hp, fun o ho => ?_⟩)
    have := hno o ho
    simpa using this
  · intro h p hp
    rw [mem_consume_fold] at hp
    obtain ⟨o, ho, hb⟩ := h p hp.1
    rw [hp.2 o ho] at hb
    cases hb

/-! ## Heap-model lemmas for the expect array -/

theorem readRef_writeRef_self (s : PatStore) (r : ARef) (v : List Pattern)
    (h : r < s.length) : readRef (writeRef s r v) r = v := by
  unfold readRef writeRef
  rw [List.getD_eq_getElem?_getD, List.getElem?_set_self]
  · rfl
  · exact h

theorem readRef_writeRef_ne (s : PatStore) (r r₂ : ARef) (v : List Pattern)
    (h : r ≠ r₂) : readRef (writeRef s r₂ v) r = readRef s r := by
  unfold readRef writeRef
  rw [List.getD_eq_getElem?_getD, List.getElem?_set_ne (Ne.symm h),
    ← List.getD_eq_getElem?_getD]

theorem writeRef_length (s : PatStore) (r : ARef) (v : List Pattern) :
    (writeRef s r v).length = s.length := by
  simp [writeRef]

theorem readRef_append_self (s : PatStore) (v : List Pattern) :
    readRef (s ++ [v]) s.length = v := by
  unfold readRef
  rw [List.getD_eq_getElem?_getD, List.getElem?_append_right (Nat.le_refl _)]
  simp

theorem readRef_append_left (s : PatStore) (v : List Pattern) (r : ARef)
    (h : r < s.length) : readRef (s ++ [v]) r = readRef s r := by
  unfold readRef
  rw [List.getD_eq_getElem?_getD, List.getElem?_append_left h,
    ← List.getD_eq_getElem?_getD]

theorem readRef_foldWrite (bucket : List ObjRecord) :
    ∀ (s : PatStore) (r : ARef), r < s.length →
    readRef (bucket.foldl (fun cur o =>
        writeRef cur r (consumePatterns o.basename (readRef cur r))) s) r
      = bucket.foldl (fun acc o => consumePatterns o.basename acc) (readRef s r) := by
  induction bucket with
  | nil =>
    intro s r _
    rfl
  | cons o rest ih =>
    intro s r h
    simp only [List.foldl_cons]
    rw [ih _ r (by rw [writeRef_length]; exact h), readRef_writeRef_self s r _ h]

theorem readRef_foldWrite_ne (bucket : List ObjRecord) (r r₂ : ARef)
    (h : r ≠ r₂) :
    ∀ s : PatStore,
    readRef (bucket.foldl (fun cur o =>
        writeRef cur r₂ (consumePatterns o.basename (readRef cur r₂))) s) r
      = readRef s r := by
  induction bucket with
  | nil =>
    intro s
    rfl
  | cons o rest ih =>
    intro s
    simp only [List.foldl_cons]
    rw [ih _, readRef_writeRef_ne _ r r₂ _ h]

theorem dayIsCompleteSt_result (s : PatStore) (st : PolicyState)
    (tree : MonthTree) (which : Nat) :
    (dayIsCompleteSt s st tree which).2
      = dayIsComplete (readRef s st.expectRef) tree which := by
  unfold dayIsCompleteSt dayIsComplete
  cases lookupAssoc which tree with
  | none => rfl
  | some bucket =>
    by_cases h₁ : bucket.length = 0
    · simp [h₁]
    · by_cases h₂ : (readRef s st.expectRef).length = 0
      · simp [h₁, h₂]
      · simp only [if_neg h₁, if_neg h₂, sliceCopy, allocRef]
        congr 1
        rw [readRef_foldWrite bucket (s ++ [readRef s st.expectRef]) s.length
          (by simp), readRef_append_self]

theorem dayIsCompleteSt_preserves (s : PatStore) (st : PolicyState)
    (tree : MonthTree) (which : Nat) (h : st.expectRef < s.length) :
    readRef (dayIsCompleteSt s st tree which).1 st.expectRef
      = readRef s st.expectRef := by
  unfold dayIsCompleteSt
  cases lookupAssoc which tree with
  | none => rfl
  | some bucket =>
    by_cases h₁ : bucket.length = 0
    · simp [h₁]
    · by_cases h₂ : (readRef s st.expectRef).length = 0
      · simp [h₁, h₂]
      · simp only [if_neg h₁, if_neg h₂, sliceCopy, allocRef]
        rw [readRef_foldWrite_ne bucket st.expectRef s.length (Nat.ne_of_lt h) _]
        exact readRef_append_left s _ st.expectRef h

/-! ## Run-level success and failure -/

theorem ingest_error_of_none (root : Root) (o : ObjRecord)
    (ho : o.start = none) :
    ingest root o
      = .error ("found entry not under a particular time bucket: " ++ o.path) := by
  rw [ingest, ho]

theorem ingestAll_ok (input : List ObjRecord) :
    ∀ root : Root, (∀ o ∈ input, o.start ≠ none) →
    ∃ root₂, ingestAll root input = .ok root₂ := by
  induction input with
  | nil =>
    intro root _
    exact ⟨root, rfl⟩
  | cons o rest ih =>
    intro root hv
    obtain ⟨t, hs⟩ : ∃ t, o.start = some t := by
      cases ho : o.start with
      | none => exact absurd ho (hv o (List.mem_cons_self o rest))
      | some t => exact ⟨t, rfl⟩
    obtain ⟨root₂, h₂⟩ := ih _ (fun r hr => hv r (List.mem_cons_of_mem o hr))
    refine ⟨root₂, ?_⟩
    rw [ingestAll, ingest_ok_of_some root o t hs, Except.bind]
    exact h₂

theorem ingestAll_error_after (post : List ObjRecord) (o : ObjRecord)
    (ho : o.start = none) (pre : List ObjRecord) :
    ∀ root : Root, (∀ r ∈ pre, r.start ≠ none) →
    ingestAll root (pre ++ o :: post)
      = .error ("found entry not under a particular time bucket: " ++ o.path) := by
  induction pre with
  | nil =>
    intro root _
    rw [List.nil_append, ingestAll, ingest_error_of_none root o ho, Except.bind]
  | cons r rest ih =>
    intro root hv
    obtain ⟨t, hs⟩ : ∃ t, r.start = some t := by
      cases hr : r.start with
      | none => exact absurd hr (hv r (List.mem_cons_self r rest))
      | some t => exact ⟨t, rfl⟩
    rw [List.cons_append, ingestAll, ingest_ok_of_some root r t hs, Except.bind]
    exact ih _ (fun x hx => hv x (List.mem_cons_of_mem r hx))

/-! ## Claim theorems -/

/-- C1 counterexample: the claim predicts that a day bucket holding exactly
one record with basename "a.log", tested against the two identical expected
patterns `[/a\.log/, /a\.log/]`, is NOT complete.  The code disagrees: the
splice/`i--` loop lets the single basename consume both copies of the
pattern, so `dayIsComplete` returns true. -/
theorem dayIsComplete_one_to_one_counterexample :
    dayIsComplete [patALog, patALog] mtALog 1 = true := by
  rfl

/-- C1 (amended): `dayIsComplete` removes, for each basename, every remaining
pattern that basename matches, so on a present non-empty bucket it returns
true iff every expected pattern matches at least one basename of the bucket
(independent testing, not a one-to-one assignment); in particular one record
"a.log" against two identical patterns IS complete. -/
theorem dayIsComplete_independent_matching (expect : List Pattern)
    (tree : MonthTree) (which : Nat) (bucket : List ObjRecord)
    (hl : lookupAssoc which tree = some bucket) (hne : bucket ≠ []) :
    dayIsComplete expect tree which = true
      ↔ ∀ p ∈ expect, ∃ o ∈ bucket, p o.basename = true := by
  have hlen : ¬ bucket.length = 0 := by
    simpa [List.length_eq_zero] using hne
  by_cases he : expect.length = 0
  · have hexp : expect = [] := List.length_eq_zero.mp he
    subst hexp
    simp [dayIsComplete, hl, hlen]
  · simp only [dayIsComplete, hl, if_neg hlen, if_neg he, decide_eq_true_eq,
      List.length_eq_zero]
    exact consume_fold_empty_iff bucket expect

/-- C1 witness for the amended theorem: the "a.log" day is complete against
the two identical patterns. -/
theorem dayIsComplete_independent_matching_witness :
    dayIsComplete [patALog, patALog] mtALog 1 = true
      ↔ ∀ p ∈ [patALog, patALog], ∃ o ∈ [recALog], p o.basename = true :=
  dayIsComplete_independent_matching [patALog, patALog] mtALog 1 [recALog]
    rfl (by simp)

/-- C2: totality of accounting — a run over records that all carry a
timestamp succeeds, and the multiset of emitted decision paths is exactly the
multiset of input paths (each input yields exactly one decision). -/
theorem runPolicy_totality (expect : List Pattern) (input : List ObjRecord)
    (hv : ∀ o ∈ input, ∃ t, o.start = some t ∧ t.day < 32) :
    ∃ ws ds, runPolicy expect input = .ok (ws, ds) ∧
      List.Perm (ds.map DecisionRecord.path) (input.map ObjRecord.path) := by
  obtain ⟨root₂, hr⟩ := ingestAll_ok input [] (fun o ho => by
    obtain ⟨t, hs, _⟩ := hv o ho
    rw [hs]
    exact fun he => Option.noConfusion he)
  refine ⟨(flushAll expect root₂).1, (flushAll expect root₂).2, ?_, ?_⟩
  · rw [runPolicy, hr, Except.map]
  · rw [flushAll_snd_paths]
    have hperm := rootRecords_ingestAll input [] root₂ hv hr
    rw [show rootRecords ([] : Root) = [] from rfl, List.append_nil] at hperm
    exact hperm.map ObjRecord.path

/-- C2 witness: a two-record run emits exactly the two input paths. -/
theorem runPolicy_totality_witness :
    ∃ ws ds, runPolicy [] [mkRec "one" 1, mkRec "twenty" 20] = .ok (ws, ds) ∧
      List.Perm (ds.map DecisionRecord.path)
        ([mkRec "one" 1, mkRec "twenty" 20].map ObjRecord.path) :=
  runPolicy_totality [] [mkRec "one" 1, mkRec "twenty" 20] (by
    intro o ho
    rcases List.mem_cons.mp ho with he | ho₂
    · exact ⟨⟨2016, 6, 1⟩, by rw [he]; rfl, by decide⟩
    · rcases List.mem_cons.mp ho₂ with he | ho₃
      · exact ⟨⟨2016, 6, 20⟩, by rw [he]; rfl, by decide⟩
      · cases ho₃)

/-- C3: conservative degradation — when a scan half has no complete day,
every buffered record of the month is emitted as a skip with the
"could not determine" reason, and nothing is emitted as remove. -/
theorem processMonth_degraded (expect : List Pattern) (label : String)
    (tree : MonthTree)
    (h : (∀ d ∈ List.range' 1 14, dayIsComplete expect tree d = false) ∨
         (∀ d ∈ List.range' 15 17, dayIsComplete expect tree d = false)) :
    (processMonth expect label tree).2
      = (emitOver (List.range 32) tree).map (fun o =>
          ⟨"skip", o.path,
            some "could not determine which objects to keep in this month"⟩) ∧
    ∀ d ∈ (processMonth expect label tree).2, d.dtype ≠ "remove" := by
  have hskip : (decide (firstKeep expect tree = 15)
      || decide (secondKeep expect tree = 32)) = true := by
    rcases h with h | h
    · simp [firstKeep_eq_of_none expect tree h]
    · simp [secondKeep_eq_of_none expect tree h]
  have hd : (processMonth expect label tree).2
      = (emitOver (List.range 32) tree).map (fun o =>
          ⟨"skip", o.path,
            some "could not determine which objects to keep in this month"⟩) := by
    rw [processMonth_snd, hskip, monthDecisions, monthDecisionsOver_skip]
  refine ⟨hd, ?_⟩
  rw [hd]
  intro d hmem
  obtain ⟨o, _, rfl⟩ := List.mem_map.mp hmem
  simp

/-- C3 witness: a month whose only bucket is day 20 is degraded (days 1-14
have no complete day) and everything in it is skipped. -/
theorem processMonth_degraded_witness :
    (processMonth [] "2016-06" mtDegraded).2
      = (emitOver (List.range 32) mtDegraded).map (fun o =>
          ⟨"skip", o.path,
            some "could not determine which objects to keep in this month"⟩) ∧
    ∀ d ∈ (processMonth [] "2016-06" mtDegraded).2, d.dtype ≠ "remove" :=
  processMonth_degraded [] "2016-06" mtDegraded (Or.inl (by decide))

/-- C4: keep-day disjointness — in a non-degraded month the first keep-day is
in 1..14, the second in 15..31, the two differ (the `skip || first != second`
assertion holds), and the removes are exactly the records of the other
days. -/
theorem processMonth_keepdays (expect : List Pattern) (label : String)
    (tree : MonthTree) (h₁ : firstKeep expect tree ≠ 15)
    (h₂ : secondKeep expect tree ≠ 32) :
    (1 ≤ firstKeep expect tree ∧ firstKeep expect tree ≤ 14) ∧
    (15 ≤ secondKeep expect tree ∧ secondKeep expect tree ≤ 31) ∧
    firstKeep expect tree ≠ secondKeep expect tree ∧
    (processMonth expect label tree).2.filter (fun d => d.dtype == "remove")
      = (emitOver ((List.range 32).filter (fun i =>
            !(i == firstKeep expect tree || i == secondKeep expect tree))) tree).map
          (fun o => ⟨"remove", o.path, none⟩) := by
  have hb₁ := firstKeep_bounds expect tree h₁
  have hb₂ := secondKeep_bounds expect tree h₂
  have hne : firstKeep expect tree ≠ secondKeep expect tree :=
    Nat.ne_of_lt (Nat.lt_of_le_of_lt hb₁.2
      (Nat.lt_of_lt_of_le (by norm_num) hb₂.1))
  refine ⟨hb₁, hb₂, hne, ?_⟩
  have hskip : (decide (firstKeep expect tree = 15)
      || decide (secondKeep expect tree = 32)) = false := by
    simp [h₁, h₂]
  rw [processMonth_snd, hskip, monthDecisions, monthDecisionsOver_remove]

/-- C4 witness: the canonical month (buckets on days 1 and 15 only) is not
degraded, keeps 1 and 15, and removes nothing else. -/
theorem processMonth_keepdays_witness :
    (1 ≤ firstKeep [] mtCanonical ∧ firstKeep [] mtCanonical ≤ 14) ∧
    (15 ≤ secondKeep [] mtCanonical ∧ secondKeep [] mtCanonical ≤ 31) ∧
    firstKeep [] mtCanonical ≠ secondKeep [] mtCanonical ∧
    (processMonth [] "2016-06" mtCanonical).2.filter (fun d => d.dtype == "remove")
      = (emitOver ((List.range 32).filter (fun i =>
            !(i == firstKeep [] mtCanonical || i == secondKeep [] mtCanonical)))
          mtCanonical).map (fun o => ⟨"remove", o.path, none⟩) :=
  processMonth_keepdays [] "2016-06" mtCanonical (by decide) (by decide)

/-- C5: a record with a null timestamp aborts the whole run with the fatal
"found entry not under a particular time bucket" error naming its path; no
decision list is produced at all (so the record is neither bucketed nor
skipped). -/
theorem runPolicy_null_fatal (expect : List Pattern) (pre post : List ObjRecord)
    (o : ObjRecord) (hpre : ∀ r ∈ pre, r.start ≠ none) (ho : o.start = none) :
    runPolicy expect (pre ++ o :: post)
      = .error ("found entry not under a particular time bucket: " ++ o.path) := by
  rw [runPolicy, ingestAll_error_after post o ho pre [] hpre, Except.map]

/-- C5 witness: one valid record followed by a dateless one fails fatally. -/
theorem runPolicy_null_fatal_witness :
    runPolicy [] ([mkRec "one" 1] ++ recNoDate :: [])
      = .error ("found entry not under a particular time bucket: "
          ++ recNoDate.path) :=
  runPolicy_null_fatal [] [mkRec "one" 1] [] recNoDate
    (by decide) rfl

/-- C6: policy lookup is case-insensitive over the table and fails loudly —
a name whose lowercasing is not a table key yields the "unsupported policy"
error carrying the original name, and any case variant of "twicemonthly"
yields the `MprunePolicyTwiceMonthly` constructor. -/
theorem policyForName_spec (name : String) :
    (lookupPolicy (strToLower name) mpPolicies = none →
      policyForName name = .error ("unsupported policy: " ++ name)) ∧
    (strToLower name = "twicemonthly" →
      policyForName name = .ok PolicyCtor.twiceMonthly) := by
  constructor
  · intro h
    rw [policyForName, h]
  · intro h
    rw [policyForName, h]
    rfl

/-- C6 witness: "FOO" is rejected with the error naming it; "TwiceMonthly"
resolves to the twice-monthly constructor. -/
theorem policyForName_spec_witness :
    policyForName "FOO" = .error ("unsupported policy: " ++ "FOO") ∧
    policyForName "TwiceMonthly" = .ok PolicyCtor.twiceMonthly :=
  ⟨(policyForName_spec "FOO").1 (by decide),
   (policyForName_spec "TwiceMonthly").2 (by decide)⟩

/-- C7: with an empty expected-pattern list, `dayIsComplete` is true exactly
when the day's bucket is present and non-empty. -/
theorem dayIsComplete_empty_expect (tree : MonthTree) (which : Nat) :
    dayIsComplete [] tree which = true
      ↔ ∃ bucket, lookupAssoc which tree = some bucket ∧ bucket ≠ [] := by
  cases hl : lookupAssoc which tree with
  | none => simp [dayIsComplete, hl]
  | some bucket =>
    by_cases h : bucket.length = 0
    · have : bucket = [] := List.length_eq_zero.mp h
      subst this
      simp [dayIsComplete, hl]
    · have hne : bucket ≠ [] := fun he => h (by rw [he]; rfl)
      simp [dayIsComplete, hl, h, hne]

/-- C8: in a non-degraded month the `nwarn_noday1` warning fires iff the
first keep-day is not 1, the `nwarn_noday2` warning fires iff the second
keep-day is not 15 (the two conditions independent of one another), and the
decision list is the pure emission loop, unaffected by the warnings. -/
theorem processMonth_deviation_warnings (expect : List Pattern) (label : String)
    (tree : MonthTree) (h₁ : firstKeep expect tree ≠ 15)
    (h₂ : secondKeep expect tree ≠ 32) :
    (("nwarn_noday1" ∈ (processMonth expect label tree).1.map Warning.tag)
        ↔ firstKeep expect tree ≠ 1) ∧
    (("nwarn_noday2" ∈ (processMonth expect label tree).1.map Warning.tag)
        ↔ secondKeep expect tree ≠ 15) ∧
    (processMonth expect label tree).2
      = monthDecisions false (firstKeep expect tree) (secondKeep expect tree)
          tree := by
  have hskip : (decide (firstKeep expect tree = 15)
      || decide (secondKeep expect tree = 32)) = false := by
    simp [h₁, h₂]
  refine ⟨?_, ?_, by rw [processMonth_snd, hskip]⟩
  · simp only [processMonth, if_neg h₁, if_neg h₂, hskip]
    by_cases hc₁ : firstKeep expect tree = 1 <;>
      by_cases hc₂ : secondKeep expect tree = 15 <;>
      simp [hc₁, hc₂]
  · simp only [processMonth, if_neg h₁, if_neg h₂, hskip]
    by_cases hc₁ : firstKeep expect tree = 1 <;>
      by_cases hc₂ : secondKeep expect tree = 15 <;>
      simp [hc₁, hc₂]

/-- C8 witness: the deviant month keeps days 5 and 20, so both warnings
fire and the decisions equal the pure emission loop. -/
theorem processMonth_deviation_warnings_witness :
    (("nwarn_noday1" ∈ (processMonth [] "2016-06" mtDeviant).1.map Warning.tag)
        ↔ firstKeep [] mtDeviant ≠ 1) ∧
    (("nwarn_noday2" ∈ (processMonth [] "2016-06" mtDeviant).1.map Warning.tag)
        ↔ secondKeep [] mtDeviant ≠ 15) ∧
    (processMonth [] "2016-06" mtDeviant).2
      = monthDecisions false (firstKeep [] mtDeviant) (secondKeep [] mtDeviant)
          mtDeviant :=
  processMonth_deviation_warnings [] "2016-06" mtDeviant (by decide) (by decide)

/-- C9: expect-list noninterference — construction stores a `slice(0)` copy
of the caller's array, so a mutation the caller applies to its own array
after construction changes neither any completeness result nor any emitted
decision; and `dayIsComplete` splices only its fresh working copy, leaving
the stored expect list untouched. -/
theorem expect_noninterference (s : PatStore) (cr : ARef) (v : List Pattern)
    (input : List ObjRecord) (tree : MonthTree) (which : Nat)
    (hcr : cr < s.length) :
    (dayIsCompleteSt (writeRef (constructPolicy s cr).1 cr v)
        (constructPolicy s cr).2 tree which).2
      = (dayIsCompleteSt (constructPolicy s cr).1
          (constructPolicy s cr).2 tree which).2 ∧
    runPolicy (readRef (writeRef (constructPolicy s cr).1 cr v)
        (constructPolicy s cr).2.expectRef) input
      = runPolicy (readRef (constructPolicy s cr).1
          (constructPolicy s cr).2.expectRef) input ∧
    readRef (dayIsCompleteSt (constructPolicy s cr).1
        (constructPolicy s cr).2 tree which).1
        (constructPolicy s cr).2.expectRef
      = readRef (constructPolicy s cr).1 (constructPolicy s cr).2.expectRef := by
  have hc : constructPolicy s cr = (s ++ [readRef s cr], ⟨s.length⟩) := rfl
  rw [hc]
  have hread : readRef (writeRef (s ++ [readRef s cr]) cr v)
        (PolicyState.mk s.length).expectRef
      = readRef (s ++ [readRef s cr]) (PolicyState.mk s.length).expectRef :=
    readRef_writeRef_ne _ _ _ _ (Ne.symm (Nat.ne_of_lt hcr))
  refine ⟨?_, by rw [hread], ?_⟩
  · rw [dayIsCompleteSt_result, dayIsCompleteSt_result, hread]
  · exact dayIsCompleteSt_preserves _ _ tree which (by simp)

/-- C9 witness: with one stored pattern, a caller mutation after
construction changes nothing, and the stored list survives a completeness
test unchanged. -/
theorem expect_noninterference_witness :
    (dayIsCompleteSt (writeRef (constructPolicy [[patALog]] 0).1 0 [])
        (constructPolicy [[patALog]] 0).2 mtALog 1).2
      = (dayIsCompleteSt (constructPolicy [[patALog]] 0).1
          (constructPolicy [[patALog]] 0).2 mtALog 1).2 ∧
    runPolicy (readRef (writeRef (constructPolicy [[patALog]] 0).1 0 [])
        (constructPolicy [[patALog]] 0).2.expectRef) [recALog]
      = runPolicy (readRef (constructPolicy [[patALog]] 0).1
          (constructPolicy [[patALog]] 0).2.expectRef) [recALog] ∧
    readRef (dayIsCompleteSt (constructPolicy [[patALog]] 0).1
        (constructPolicy [[patALog]] 0).2 mtALog 1).1
        (constructPolicy [[patALog]] 0).2.expectRef
      = readRef (constructPolicy [[patALog]] 0).1
          (constructPolicy [[patALog]] 0).2.expectRef :=
  expect_noninterference [[patALog]] 0 [] [recALog] mtALog 1 (by decide)

/-- C10 (implicit): when a non-degraded month's second keep-day is not 15,
the warning tagged `nwarn_noday2` is emitted with message
"<label>: missing objects from day 1" — the same text as the `nwarn_noday1`
warning, naming day 1 rather than day 15 (lines 451-454 reuse the day-1
string). -/
theorem processMonth_noday2_text (expect : List Pattern) (label : String)
    (tree : MonthTree) (h₁ : firstKeep expect tree ≠ 15)
    (h₂ : secondKeep expect tree ≠ 32) (h₃ : secondKeep expect tree ≠ 15) :
    (⟨"nwarn_noday2", label ++ ": missing objects from day 1"⟩ : Warning)
        ∈ (processMonth expect label tree).1 ∧
    ∀ w ∈ (processMonth expect label tree).1, w.tag = "nwarn_noday2" →
      w.msg = label ++ ": missing objects from day 1" := by
  have hskip : (decide (firstKeep expect tree = 15)
      || decide (secondKeep expect tree = 32)) = false := by
    simp [h₁, h₂]
  constructor
  · simp only [processMonth, if_neg h₁, if_neg h₂, hskip]
    by_cases hc₁ : firstKeep expect tree = 1 <;> simp [hc₁, h₃]
  · simp only [processMonth, if_neg h₁, if_neg h₂, hskip, List.nil_append]
    intro w hw _
    rcases List.mem_append.mp hw with hw | hw
    · split at hw
      · rw [List.mem_singleton.mp hw]
      · cases hw
    · split at hw
      · rw [List.mem_singleton.mp hw]
      · cases hw

/-- C10 witness: in the deviant month (keep-days 5 and 20) the `nwarn_noday2`
warning text names day 1. -/
theorem processMonth_noday2_text_witness :
    (⟨"nwarn_noday2", "2016-06" ++ ": missing objects from day 1"⟩ : Warning)
        ∈ (processMonth [] "2016-06" mtDeviant).1 ∧
    ∀ w ∈ (processMonth [] "2016-06" mtDeviant).1, w.tag = "nwarn_noday2" →
      w.msg = "2016-06" ++ ": missing objects from day 1" :=
  processMonth_noday2_text [] "2016-06" mtDeviant (by decide) (by decide)
    (by decide)

end Mprune
